import Mathlib

/-!
# Verification of the `cwalk` concurrent directory walker

Shallow embedding of the Go package `cwalk` (concurrent filesystem tree
walker).  The filesystem visible to the walker is modelled as an inductive
tree (`Node`), `os.Lstat` and `readDirNames` become functions on that tree,
and the per-directory loop of `Walker.processPath` is transcribed as
`processNames`.  The worker pool / bounded job queue / synchronous
fallback are modelled by a worklist machine (`runW`) parameterised by an
arbitrary scheduler: in the Go code each job (a directory path) is
processed exactly once, by whichever execution context gets it, and the
processing of one job is a pure function of the job; the worker-pool size
and queue capacity only influence which interleaving occurs, which the
scheduler parameter over-approximates.
-/

namespace Cwalk

/-- A filesystem path, as the list of name components below the walk root.
`filepath.Join(root, name)` becomes appending one component. -/
abbrev Path := List String

/-- The fragment of `os.FileInfo` the walker consults (`info.IsDir()`). -/
structure FileInfo where
  isDir : Bool
deriving DecidableEq

/-- Go `error` values that can flow through the walker:
the `filepath.SkipDir` sentinel, the package's `ErrNotDir` sentinel,
operating-system errors (from `os.Lstat` / `os.Open` / `Readdirnames`)
carrying a message, and arbitrary callback-made errors carrying a message. -/
inductive GoErr where
  | skipDir : GoErr
  | errNotDir : GoErr
  | io (msg : String) : GoErr
  | other (msg : String) : GoErr
deriving DecidableEq

/-- The `Error()` message of a `GoErr`. -/
def GoErr.message : GoErr → String
  | .skipDir => "skip this directory"
  | .errNotDir => "Not a directory"
  | .io m => m
  | .other m => m

/-- One node of the filesystem tree seen by the walker.
`broken msg` is an entry on which `os.Lstat` fails with message `msg`
(so the walker gets a nil `FileInfo`); `dir readErr children` is a
directory, whose `readDirNames` fails with `.io m` when `readErr = some m`
and otherwise lists `children` in order. -/
inductive Node where
  | file : Node
  | broken (msg : String) : Node
  | dir (readErr : Option String) (children : List (String × Node)) : Node

/-- `os.Lstat`: the `FileInfo` result (`none` = nil interface, stat failed). -/
def lstatInfo : Node → Option FileInfo
  | .file => some ⟨false⟩
  | .broken _ => none
  | .dir _ _ => some ⟨true⟩

/-- `os.Lstat`: the error result (`none` = nil error). -/
def lstatErr : Node → Option GoErr
  | .broken m => some (.io m)
  | _ => none

/-- The error `readDirNames` produces on a node, `none` when it succeeds
and returns the children. Only directory nodes are ever submitted as jobs,
but the function is total: opening a non-directory for listing fails. -/
def readDirErr : Node → Option GoErr
  | .dir none _ => none
  | .dir (some m) _ => some (.io m)
  | .file => some (.io "readdirnames: not a directory")
  | .broken m => some (.io m)

/-- The callback type `filepath.WalkFunc`: receives the path, the
(possibly nil) `FileInfo` and the (possibly nil) error from `Lstat`,
and returns nil (continue), `filepath.SkipDir`, or another error. -/
abbrev WalkFunc := Path → Option FileInfo → Option GoErr → Option GoErr

/-- One callback invocation: the three arguments the walker passed. -/
structure Visit where
  path : Path
  info : Option FileInfo
  errIn : Option GoErr
deriving DecidableEq

/-- Result of one `Walker.processPath` call: the callback invocations it
performed (in order), the jobs it handed to `addJob` (in order), its
return value, and whether it panicked (`info.IsDir()` on a nil
`FileInfo`, which crashes the whole program in Go). -/
structure ProcOut where
  visits : List Visit
  spawned : List (Path × Node)
  err : Option GoErr
  panicked : Bool

/-- The child loop of `Walker.processPath`:

```go
for _, name := range names {
    path = filepath.Join(root, name)
    info, err := os.Lstat(path)
    err = w.walkFunc(path, info, err)
    if err == nil && info.IsDir() {
        w.addJob(path)
    }
    if err != nil && err != filepath.SkipDir {
        return err
    }
}
return nil
```

When the callback returns nil and `info` is nil (lstat failed), the
`info.IsDir()` call dereferences a nil interface: `panicked := true`. -/
def processNames (f : WalkFunc) (root : Path) : List (String × Node) → ProcOut
  | [] => ⟨[], [], none, false⟩
  | (name, n) :: rest =>
    let p := root ++ [name]
    let v : Visit := ⟨p, lstatInfo n, lstatErr n⟩
    match f p (lstatInfo n) (lstatErr n), lstatInfo n with
    | none, none => ⟨[v], [], none, true⟩
    | none, some i =>
      let r := processNames f root rest
      ⟨v :: r.visits, (if i.isDir then [(p, n)] else []) ++ r.spawned, r.err, r.panicked⟩
    | some e, _ =>
      if e = .skipDir then
        let r := processNames f root rest
        ⟨v :: r.visits, r.spawned, r.err, r.panicked⟩
      else ⟨[v], [], some e, false⟩

/-- `Walker.processPath` on one job: `readDirNames` first (its failure is
returned as this directory's own error, no child visited), then the child
loop. -/
def processJob (f : WalkFunc) (p : Path) (n : Node) : ProcOut :=
  match readDirErr n, n with
  | none, .dir _ cs => processNames f p cs
  | none, _ => ⟨[], [], none, false⟩
  | some e, _ => ⟨[], [], some e, false⟩

mutual

/-- Number of nodes in a tree (for fuel/termination arguments). -/
def Node.size : Node → Nat
  | .file => 1
  | .broken _ => 1
  | .dir _ cs => 1 + sizeKids cs

/-- Total size of a list of children. -/
def sizeKids : List (String × Node) → Nat
  | [] => 0
  | (_, n) :: rest => Node.size n + sizeKids rest

end

/-- Accumulated output of fully processing one job and, recursively, every
job it spawns (the walker's semantics up to interleaving order): the
multiset of callback invocations, the multiset of `(path, error)` pairs
sent on the error channel, and whether any processing in the subtree
panics. -/
structure DfsOut where
  visits : Multiset Visit
  errs : Multiset (Path × GoErr)
  panics : Bool

/-- Like `DfsOut` but for the child loop of one directory: `err` is the
value `processPath` returns for that directory (not yet paired with the
directory's path). -/
structure DfsKidsOut where
  visits : Multiset Visit
  errs : Multiset (Path × GoErr)
  err : Option GoErr
  panics : Bool

mutual

/-- Reference semantics: the total output of processing job `(p, n)` and
every job transitively spawned from it. -/
def dfsJob (f : WalkFunc) (p : Path) : Node → DfsOut
  | .dir none cs =>
    let r := dfsKids f p cs
    ⟨r.visits, (match r.err with | some e => (p, e) ::ₘ r.errs | none => r.errs), r.panics⟩
  | .dir (some m) _ => ⟨0, {(p, GoErr.io m)}, false⟩
  | .file => ⟨0, {(p, GoErr.io "readdirnames: not a directory")}, false⟩
  | .broken m => ⟨0, {(p, GoErr.io m)}, false⟩

/-- Reference semantics of the child loop, recursing into spawned
subdirectories. -/
def dfsKids (f : WalkFunc) (root : Path) : List (String × Node) → DfsKidsOut
  | [] => ⟨0, 0, none, false⟩
  | (name, n) :: rest =>
    let p := root ++ [name]
    let v : Visit := ⟨p, lstatInfo n, lstatErr n⟩
    match f p (lstatInfo n) (lstatErr n), lstatInfo n with
    | none, none => ⟨{v}, 0, none, true⟩
    | none, some i =>
      let sub := if i.isDir then dfsJob f p n else ⟨0, 0, false⟩
      let r := dfsKids f root rest
      ⟨v ::ₘ (sub.visits + r.visits), sub.errs + r.errs, r.err, sub.panics || r.panics⟩
    | some e, _ =>
      if e = .skipDir then
        let r := dfsKids f root rest
        ⟨v ::ₘ r.visits, r.errs, r.err, r.panics⟩
      else ⟨{v}, 0, some e, false⟩

end

/-- Total reference visits of a list of pending jobs. -/
def spawnVisits (f : WalkFunc) (l : List (Path × Node)) : Multiset Visit :=
  (l.map fun j => (dfsJob f j.1 j.2).visits).sum

/-- Total reference errors of a list of pending jobs. -/
def spawnErrs (f : WalkFunc) (l : List (Path × Node)) : Multiset (Path × GoErr) :=
  (l.map fun j => (dfsJob f j.1 j.2).errs).sum

/-- Whether any of a list of pending jobs panics. -/
def spawnPanics (f : WalkFunc) (l : List (Path × Node)) : Bool :=
  l.any fun j => (dfsJob f j.1 j.2).panics

/-- Total size of the nodes of a list of pending jobs. -/
def spawnSize (l : List (Path × Node)) : Nat :=
  (l.map fun j => j.2.size).sum

/-- The `(path, error)` pair a worker (or the synchronous fallback in
`addJob`) sends to the error channel for a job that returned an error. -/
def errPair (p : Path) : Option GoErr → Multiset (Path × GoErr)
  | some e => {(p, e)}
  | none => 0

/-- Per-invocation state of the walker's in-flight work: the jobs added
(`wg.Add`) but not yet completed (`wg.Done`), the callback invocations
performed so far, and the `(path, error)` pairs sent on the error channel
so far (which `collectErrors` appends to `errorList` in arrival order). -/
structure WState where
  pending : List (Path × Node)
  visits : List Visit
  errs : List (Path × GoErr)

/-- One step of the walk: some execution context (a pool worker draining
the jobs channel, or the submitting context running the synchronous
fallback of `addJob`) completes the processing of the `i`-th in-flight
job.  `none` when that processing panics (the whole Go program crashes). -/
def stepW (f : WalkFunc) (s : WState) (i : Nat) : Option WState :=
  match s.pending[i]? with
  | none => none
  | some (p, n) =>
    let r := processJob f p n
    if r.panicked then none
    else some ⟨s.pending.eraseIdx i ++ r.spawned, s.visits ++ r.visits,
      s.errs ++ (match r.err with | some e => [(p, e)] | none => [])⟩

/-- Run the walker until `wg.Wait` would return (no job in flight), the
scheduler `sched` choosing at each step which in-flight job completes
next; the worker-pool size and the queue capacity only influence this
choice.  `none` when the fuel runs out or some job processing panics. -/
def runW (f : WalkFunc) (sched : Nat → Nat) : Nat → WState → Option WState
  | 0, s => if s.pending.isEmpty then some s else none
  | fuel + 1, s =>
    if s.pending.isEmpty then some s
    else
      match stepW f s (sched fuel % s.pending.length) with
      | none => none
      | some s' => runW f sched fuel s'

/-- Callback invocations already performed plus those the in-flight jobs
will perform: invariant under `stepW`. -/
def potVisits (f : WalkFunc) (s : WState) : Multiset Visit :=
  ↑s.visits + spawnVisits f s.pending

/-- Errors already sent plus those the in-flight jobs will send. -/
def potErrs (f : WalkFunc) (s : WState) : Multiset (Path × GoErr) :=
  ↑s.errs + spawnErrs f s.pending

/-- No in-flight job's subtree panics. -/
def panFree (f : WalkFunc) (s : WState) : Prop :=
  spawnPanics f s.pending = false

/-- Total node size of the in-flight jobs: strictly decreases at each
step. -/
def potSize (s : WState) : Nat :=
  spawnSize s.pending

/-- A struct to store individual errors reported from each worker routine
(`WalkerError{error, path}`). -/
structure WalkerError where
  error : GoErr
  path : Path

/-- `WalkerError.Error()` — the message of the underlying error. -/
def WalkerError.message (we : WalkerError) : String :=
  we.error.message

/-- A struct to store a list of errors reported from all worker routines. -/
structure WalkerErrorList where
  ErrorList : List WalkerError

/-- Go `strings.Join(elems, sep)`. -/
def stringsJoin (elems : List String) (sep : String) : String :=
  match elems with
  | [] => ""
  | x :: xs => xs.foldl (fun acc s => acc ++ sep ++ s) x

/-- `WalkerErrorList.Error()`:

```go
if len(wel.ErrorList) > 0 {
    out := make([]string, len(wel.ErrorList))
    for i, err := range wel.ErrorList {
        out[i] = err.Error()
    }
    return strings.Join(out, "\n")
}
return ""
``` -/
def WalkerErrorList.message (wel : WalkerErrorList) : String :=
  if wel.ErrorList.length > 0 then
    stringsJoin (wel.ErrorList.map WalkerError.message) "\x0a"
  else ""

/-- The error value `Walker.Walk` returns: either a single Go error
(`nil` modelled by wrapping in `Option`), or the `WalkerErrorList`
aggregate, which keeps the collected `WalkerError` records available for
structured inspection. -/
inductive WalkRet where
  | single (e : GoErr) : WalkRet
  | list (l : List WalkerError) : WalkRet

/-- Observable outcome of one `Walker.Walk` call: every callback
invocation performed (root first, then in completion order of the jobs),
the `(path, error)` pairs collected by `collectErrors` in arrival order,
and the returned error (`none` = `nil`). -/
structure WalkOut where
  visits : List Visit
  errs : List (Path × GoErr)
  ret : Option WalkRet

/-- `Walker.Walk`:

```go
info, err := os.Lstat(root)
if err == nil {
    err = w.walkFunc(root, info, err)
}
if err != nil {
    return err
}
if !info.IsDir() {
    return ErrNotDir
}
// spawn workers; w.addJob(root); w.wg.Wait(); close; w.ewg.Wait()
if len(w.errorList.ErrorList) > 0 {
    return w.errorList
}
return nil
```

When `os.Lstat(root)` fails its error is returned as is — the callback is
*not* invoked.  When the root callback returns a non-nil error (including
`filepath.SkipDir`) that error is returned as is.  Otherwise the root job
is submitted and processed to quiescence (`runW`); the result is `none`
when some job processing panics or the fuel is too small. -/
def Walk (f : WalkFunc) (rootPath : Path) (root : Node) (sched : Nat → Nat)
    (fuel : Nat) : Option WalkOut :=
  match lstatErr root, lstatInfo root with
  | some e, _ => some ⟨[], [], some (.single e)⟩
  | none, none => some ⟨[], [], some (.single .errNotDir)⟩
  | none, some info =>
    let v : Visit := ⟨rootPath, some info, none⟩
    match f rootPath (some info) none with
    | some e => some ⟨[v], [], some (.single e)⟩
    | none =>
      if !info.isDir then some ⟨[v], [], some (.single .errNotDir)⟩
      else
        match runW f sched fuel ⟨[(rootPath, root)], [], []⟩ with
        | none => none
        | some s =>
          some ⟨v :: s.visits, s.errs,
            if s.errs.length > 0 then
              some (.list (s.errs.map fun pe => ⟨pe.2, pe.1⟩))
            else none⟩

mutual

/-- All paths reachable from `p` (labelling a tree `n`) by directory
descent, `p` itself included. -/
def subtreePaths (p : Path) : Node → Multiset Path
  | .file => {p}
  | .broken _ => {p}
  | .dir _ cs => p ::ₘ kidsPaths p cs

/-- Paths reachable inside the children of a directory at `p`. -/
def kidsPaths (p : Path) : List (String × Node) → Multiset Path
  | [] => 0
  | (name, n) :: rest => subtreePaths (p ++ [name]) n + kidsPaths p rest

end

mutual

/-- No filesystem operation fails anywhere in the tree: no `broken`
entry (lstat always succeeds) and no unreadable directory. -/
def Node.healthy : Node → Bool
  | .file => true
  | .broken _ => false
  | .dir (some _) _ => false
  | .dir none cs => kidsHealthy cs

def kidsHealthy : List (String × Node) → Bool
  | [] => true
  | (_, n) :: rest => n.healthy && kidsHealthy rest

end

mutual

/-- Well-formed tree: within each directory the child names are distinct
(as every real directory listing guarantees). -/
def Node.wf : Node → Bool
  | .file => true
  | .broken _ => true
  | .dir _ cs => ((cs.map Prod.fst).Nodup : Bool) && kidsWf cs

def kidsWf : List (String × Node) → Bool
  | [] => true
  | (_, n) :: rest => n.wf && kidsWf rest

end

/-- Whether a node is a directory (what `info.IsDir()` reports after a
successful lstat). -/
def Node.isDirNode : Node → Bool
  | .dir _ _ => true
  | _ => false

/-- Observable effect of one `Walker.addJob` invocation:

```go
w.wg.Add(1)
select {
case w.jobs <- path: // ok
default: // buffer overflow
    // process job synchronously
    err := w.processPath(path)
    if err != nil {
        w.errors <- WalkerError{error: err, path: path}
    }
}
```

`canQueue` abstracts whether the non-blocking send succeeds (a queue slot
or an idle worker is available); when it fails, `processPath` runs on the
submitting execution context itself. -/
structure AddJobOut where
  enqueued : Bool
  ranInline : Bool
  visits : List Visit
  spawned : List (Path × Node)
  errorsSent : List (Path × GoErr)

/-- Model of `Walker.addJob`. -/
def addJob (f : WalkFunc) (canQueue : Bool) (p : Path) (n : Node) : AddJobOut :=
  if canQueue then ⟨true, false, [], [], []⟩
  else
    let r := processJob f p n
    ⟨false, true, r.visits, r.spawned,
      match r.err with | some e => [(p, e)] | none => []⟩

/-- One iteration of `Walker.worker` on a dequeued job:

```go
for path := range w.jobs {
    err := w.processPath(path)
    if err != nil {
        w.errors <- WalkerError{error: err, path: path}
    }
}
``` -/
def workerIter (f : WalkFunc) (p : Path) (n : Node) :
    List Visit × List (Path × Node) × List (Path × GoErr) :=
  let r := processJob f p n
  (r.visits, r.spawned, match r.err with | some e => [(p, e)] | none => [])

theorem spawnVisits_append (f : WalkFunc) (l₁ l₂ : List (Path × Node)) :
    spawnVisits f (l₁ ++ l₂) = spawnVisits f l₁ + spawnVisits f l₂ := by
  simp [spawnVisits]

theorem spawnErrs_append (f : WalkFunc) (l₁ l₂ : List (Path × Node)) :
    spawnErrs f (l₁ ++ l₂) = spawnErrs f l₁ + spawnErrs f l₂ := by
  simp [spawnErrs]

theorem spawnPanics_append (f : WalkFunc) (l₁ l₂ : List (Path × Node)) :
    spawnPanics f (l₁ ++ l₂) = (spawnPanics f l₁ || spawnPanics f l₂) := by
  simp [spawnPanics, List.any_append]

theorem spawnSize_append (l₁ l₂ : List (Path × Node)) :
    spawnSize (l₁ ++ l₂) = spawnSize l₁ + spawnSize l₂ := by
  simp [spawnSize]

theorem spawnVisits_single (f : WalkFunc) (p : Path) (n : Node) :
    spawnVisits f [(p, n)] = (dfsJob f p n).visits := by
  simp [spawnVisits]

theorem spawnErrs_single (f : WalkFunc) (p : Path) (n : Node) :
    spawnErrs f [(p, n)] = (dfsJob f p n).errs := by
  simp [spawnErrs]

theorem spawnPanics_single (f : WalkFunc) (p : Path) (n : Node) :
    spawnPanics f [(p, n)] = (dfsJob f p n).panics := by
  simp [spawnPanics]

theorem spawnVisits_cons (f : WalkFunc) (j : Path × Node) (l : List (Path × Node)) :
    spawnVisits f (j :: l) = (dfsJob f j.1 j.2).visits + spawnVisits f l := by
  simp [spawnVisits]

theorem spawnErrs_cons (f : WalkFunc) (j : Path × Node) (l : List (Path × Node)) :
    spawnErrs f (j :: l) = (dfsJob f j.1 j.2).errs + spawnErrs f l := by
  simp [spawnErrs]

theorem spawnPanics_cons (f : WalkFunc) (j : Path × Node) (l : List (Path × Node)) :
    spawnPanics f (j :: l) = ((dfsJob f j.1 j.2).panics || spawnPanics f l) := by
  simp [spawnPanics]

theorem spawnSize_cons (j : Path × Node) (l : List (Path × Node)) :
    spawnSize (j :: l) = j.2.size + spawnSize l := by
  simp [spawnSize]

theorem spawnVisits_nil (f : WalkFunc) : spawnVisits f [] = 0 := rfl

theorem spawnErrs_nil (f : WalkFunc) : spawnErrs f [] = 0 := rfl

theorem spawnPanics_nil (f : WalkFunc) : spawnPanics f [] = false := rfl

/-- The one-directory loop (`processNames`) agrees with the recursive
reference semantics (`dfsKids`): same returned error; if the loop itself
does not panic, the reference visits/errors decompose as the loop's own
visits/errors plus the reference output of the spawned jobs. -/
theorem processNames_link (f : WalkFunc) (root : Path) (cs : List (String × Node)) :
    (processNames f root cs).err = (dfsKids f root cs).err ∧
    ((processNames f root cs).panicked = true → (dfsKids f root cs).panics = true) ∧
    ((processNames f root cs).panicked = false →
      (dfsKids f root cs).visits =
        ↑(processNames f root cs).visits + spawnVisits f (processNames f root cs).spawned ∧
      (dfsKids f root cs).errs = spawnErrs f (processNames f root cs).spawned ∧
      (dfsKids f root cs).panics = spawnPanics f (processNames f root cs).spawned) := by
  induction cs with
  | nil => simp [processNames, dfsKids, spawnVisits, spawnErrs, spawnPanics]
  | cons c rest ih =>
    obtain ⟨name, n⟩ := c
    obtain ⟨ih₁, ih₂, ih₃⟩ := ih
    rcases hf : f (root ++ [name]) (lstatInfo n) (lstatErr n) with _ | e
    · rcases hn : lstatInfo n with _ | i
      · rw [hn] at hf
        simp [processNames, dfsKids, hf, hn]
      · rw [hn] at hf
        by_cases hd : i.isDir
        · rcases hp : (processNames f root rest).panicked with _ | _
          · obtain ⟨h₁, h₂, h₃⟩ := ih₃ hp
            simp [processNames, dfsKids, hf, hn, hd, hp, ih₁, h₁, h₂, h₃,
              spawnVisits_cons, spawnErrs_cons, spawnPanics_cons,
              ← Multiset.cons_coe, Multiset.cons_add, Bool.or_comm]
            ac_rfl
          · simp [processNames, dfsKids, hf, hn, hd, hp, ih₁, ih₂ hp]
        · rcases hp : (processNames f root rest).panicked with _ | _
          · obtain ⟨h₁, h₂, h₃⟩ := ih₃ hp
            simp [processNames, dfsKids, hf, hn, hd, hp, ih₁, h₁, h₂, h₃,
              spawnVisits_nil, spawnErrs_nil, spawnPanics_nil,
              ← Multiset.cons_coe, Multiset.cons_add]
          · simp [processNames, dfsKids, hf, hn, hd, hp, ih₁, ih₂ hp]
    · by_cases hs : e = GoErr.skipDir
      · rcases hp : (processNames f root rest).panicked with _ | _
        · obtain ⟨h₁, h₂, h₃⟩ := ih₃ hp
          simp [processNames, dfsKids, hf, hs, hp, ih₁, h₁, h₂, h₃,
            ← Multiset.cons_coe, Multiset.cons_add]
        · simp [processNames, dfsKids, hf, hs, hp, ih₁, ih₂ hp]
      · simp [processNames, dfsKids, hf, hs, spawnVisits, spawnErrs, spawnPanics]

/-- Job-level link: `processJob` agrees with `dfsJob`, the job's returned
error being paired with the job's path (as `worker` / the fallback in
`addJob` do when sending to the error channel). -/
theorem processJob_link (f : WalkFunc) (p : Path) (n : Node) :
    ((processJob f p n).panicked = true → (dfsJob f p n).panics = true) ∧
    ((processJob f p n).panicked = false →
      (dfsJob f p n).visits =
        ↑(processJob f p n).visits + spawnVisits f (processJob f p n).spawned ∧
      (dfsJob f p n).errs =
        errPair p (processJob f p n).err + spawnErrs f (processJob f p n).spawned ∧
      (dfsJob f p n).panics = spawnPanics f (processJob f p n).spawned) := by
  cases n with
  | file =>
    simp [processJob, dfsJob, readDirErr, errPair, spawnVisits, spawnErrs, spawnPanics]
  | broken m =>
    simp [processJob, dfsJob, readDirErr, errPair, spawnVisits, spawnErrs, spawnPanics]
  | dir re cs =>
    cases re with
    | none =>
      obtain ⟨l₁, l₂, l₃⟩ := processNames_link f p cs
      constructor
      · intro hp
        simp only [processJob, readDirErr] at hp
        simp only [dfsJob]
        exact l₂ hp
      · intro hp
        simp only [processJob, readDirErr] at hp ⊢
        obtain ⟨h₁, h₂, h₃⟩ := l₃ hp
        rcases he : (processNames f p cs).err with _ | e
        · rw [he] at l₁
          simp [dfsJob, ← l₁, h₁, h₂, h₃, errPair]
        · rw [he] at l₁
          simp [dfsJob, ← l₁, h₁, h₂, h₃, errPair, ← Multiset.singleton_add]
    | some m =>
      simp [processJob, dfsJob, readDirErr, errPair, spawnVisits, spawnErrs, spawnPanics]

/-- Every node has positive size. -/
theorem Node.one_le_size (n : Node) : 1 ≤ n.size := by
  cases n <;> simp [Node.size]

mutual

theorem processNames_spawnSize (f : WalkFunc) (root : Path) (cs : List (String × Node)) :
    spawnSize (processNames f root cs).spawned ≤ sizeKids cs := by
  match cs with
  | [] => simp [processNames, spawnSize]
  | (name, n) :: rest =>
    have ih := processNames_spawnSize f root rest
    rcases hf : f (root ++ [name]) (lstatInfo n) (lstatErr n) with _ | e
    · rcases hn : lstatInfo n with _ | i
      · rw [hn] at hf
        simp [processNames, hf, hn, spawnSize, sizeKids]
      · rw [hn] at hf
        by_cases hd : i.isDir
        · simp [processNames, hf, hn, hd, spawnSize_cons, sizeKids]
          omega
        · simp [processNames, hf, hn, hd, sizeKids]
          have := Node.one_le_size n
          omega
    · by_cases hs : e = GoErr.skipDir
      · simp [processNames, hf, hs, sizeKids] at ih ⊢
        have := Node.one_le_size n
        omega
      · simp [processNames, hf, hs, spawnSize, sizeKids]

end

/-- The jobs one `processPath` call spawns are strictly smaller, in total,
than the directory it processed. -/
theorem processJob_spawnSize (f : WalkFunc) (p : Path) (n : Node) :
    spawnSize (processJob f p n).spawned < n.size := by
  cases n with
  | file => simp [processJob, readDirErr, spawnSize, Node.size]
  | broken m => simp [processJob, readDirErr, spawnSize, Node.size]
  | dir re cs =>
    cases re with
    | none =>
      have := processNames_spawnSize f p cs
      simp only [processJob, readDirErr, Node.size]
      omega
    | some m => simp [processJob, readDirErr, spawnSize, Node.size]

theorem map_sum_eraseIdx {α M : Type _} [AddCommMonoid M] (g : α → M) :
    ∀ (L : List α) (i : Nat), ∀ h : i < L.length,
      (L.map g).sum = g (L.get ⟨i, h⟩) + ((L.eraseIdx i).map g).sum := by
  intro L
  induction L with
  | nil => intro i h; simp at h
  | cons a t ih =>
    intro i h
    cases i with
    | zero => simp [List.eraseIdx]
    | succ j =>
      have hj : j < t.length := by simpa using h
      have := ih j hj
      simp [List.eraseIdx, this]
      ac_rfl

theorem spawnPanics_eq_false_of_mem {f : WalkFunc} {l : List (Path × Node)}
    (h : spawnPanics f l = false) {j : Path × Node} (hj : j ∈ l) :
    (dfsJob f j.1 j.2).panics = false := by
  have := List.any_eq_false.mp h j hj
  simpa using this

theorem spawnPanics_eraseIdx {f : WalkFunc} {l : List (Path × Node)}
    (h : spawnPanics f l = false) (i : Nat) :
    spawnPanics f (l.eraseIdx i) = false := by
  refine List.any_eq_false.mpr ?_
  intro j hj
  have hjl : j ∈ l := (List.eraseIdx_sublist l i).subset hj
  simpa using List.any_eq_false.mp h j hjl

/-- A successful step preserves the total visit/error potentials,
strictly decreases the total pending size, and preserves panic-freedom. -/
theorem stepW_invariant (f : WalkFunc) (s : WState) (i : Nat) (s' : WState)
    (h : stepW f s i = some s') :
    potVisits f s' = potVisits f s ∧ potErrs f s' = potErrs f s ∧
    potSize s' < potSize s ∧ (panFree f s → panFree f s') := by
  unfold stepW at h
  rcases hg : s.pending[i]? with _ | ⟨p, n⟩
  · rw [hg] at h
    simp at h
  · rw [hg] at h
    dsimp only at h
    rcases hp : (processJob f p n).panicked with _ | _
    · rw [hp] at h
      simp only [Bool.false_eq_true, if_false, Option.some.injEq] at h
      subst h
      have hi : i < s.pending.length := (List.getElem?_eq_some.mp hg).1
      have hget : s.pending.get ⟨i, hi⟩ = (p, n) := by
        have := (List.getElem?_eq_some.mp hg).2
        simpa using this
      have hmem : (p, n) ∈ s.pending := by
        rw [← hget]
        exact s.pending.get_mem i hi
      obtain ⟨_, hlink⟩ := processJob_link f p n
      obtain ⟨hv, he, hpan⟩ := hlink hp
      have hsplitV := map_sum_eraseIdx (fun j => (dfsJob f j.1 j.2).visits) s.pending i hi
      have hsplitE := map_sum_eraseIdx (fun j => (dfsJob f j.1 j.2).errs) s.pending i hi
      have hsplitS := map_sum_eraseIdx (fun j => j.2.size) s.pending i hi
      rw [hget] at hsplitV hsplitE hsplitS
      refine ⟨?_, ?_, ?_, ?_⟩
      · show ↑(s.visits ++ (processJob f p n).visits) +
            spawnVisits f (s.pending.eraseIdx i ++ (processJob f p n).spawned) =
            ↑s.visits + spawnVisits f s.pending
        rw [spawnVisits_append]
        have : spawnVisits f s.pending =
            (dfsJob f p n).visits + spawnVisits f (s.pending.eraseIdx i) := hsplitV
        rw [this, hv]
        simp only [← Multiset.coe_add]
        ac_rfl
      · show ↑(s.errs ++ (match (processJob f p n).err with
              | some e => [(p, e)] | none => [])) +
            spawnErrs f (s.pending.eraseIdx i ++ (processJob f p n).spawned) =
            ↑s.errs + spawnErrs f s.pending
        rw [spawnErrs_append]
        have : spawnErrs f s.pending =
            (dfsJob f p n).errs + spawnErrs f (s.pending.eraseIdx i) := hsplitE
        rw [this, he]
        rcases (processJob f p n).err with _ | e
        · simp only [errPair, ← Multiset.coe_add]
          simp
          ac_rfl
        · simp only [errPair, ← Multiset.singleton_add, ← Multiset.coe_add]
          push_cast
          ac_rfl
      · show spawnSize (s.pending.eraseIdx i ++ (processJob f p n).spawned) <
            spawnSize s.pending
        rw [spawnSize_append]
        have hlt := processJob_spawnSize f p n
        have : spawnSize s.pending = n.size + spawnSize (s.pending.eraseIdx i) := hsplitS
        omega
      · intro hfree
        show spawnPanics f (s.pending.eraseIdx i ++ (processJob f p n).spawned) = false
        rw [spawnPanics_append]
        have h₁ : spawnPanics f (s.pending.eraseIdx i) = false :=
          spawnPanics_eraseIdx hfree i
        have h₂ : (dfsJob f p n).panics = false :=
          spawnPanics_eq_false_of_mem hfree hmem
        rw [h₁, ← hpan, h₂]
        rfl
    · rw [hp] at h
      simp at h

/-- A step on a valid index succeeds when no in-flight job's subtree
panics. -/
theorem stepW_succeeds (f : WalkFunc) (s : WState) (i : Nat)
    (hi : i < s.pending.length) (hp : panFree f s) :
    ∃ s', stepW f s i = some s' := by
  have hg : s.pending[i]? = some (s.pending.get ⟨i, hi⟩) := by
    simp [List.getElem?_eq_getElem hi]
  rcases hj : s.pending.get ⟨i, hi⟩ with ⟨p, n⟩
  rw [hj] at hg
  have hmem : (p, n) ∈ s.pending := by
    rw [← hj]
    exact s.pending.get_mem i hi
  have hdfs : (dfsJob f p n).panics = false := spawnPanics_eq_false_of_mem hp hmem
  have hpan : (processJob f p n).panicked = false := by
    rcases hq : (processJob f p n).panicked with _ | _
    · rfl
    · have := (processJob_link f p n).1 hq
      rw [hdfs] at this
      exact absurd this (by simp)
  refine ⟨⟨s.pending.eraseIdx i ++ (processJob f p n).spawned,
      s.visits ++ (processJob f p n).visits,
      s.errs ++ (match (processJob f p n).err with
        | some e => [(p, e)] | none => [])⟩, ?_⟩
  unfold stepW
  rw [hg]
  simp [hpan]

/-- Every completed run has drained all in-flight work (`wg.Wait`
returned) and its accumulated outputs equal the state's potentials —
independently of the scheduler. -/
theorem runW_out (f : WalkFunc) (sched : Nat → Nat) :
    ∀ (fuel : Nat) (s s' : WState), runW f sched fuel s = some s' →
      s'.pending = [] ∧
      (↑s'.visits : Multiset Visit) = potVisits f s ∧
      (↑s'.errs : Multiset (Path × GoErr)) = potErrs f s := by
  intro fuel
  induction fuel with
  | zero =>
    intro s s' h
    simp only [runW] at h
    rcases he : s.pending.isEmpty with _ | _
    · rw [he] at h
      simp at h
    · rw [he] at h
      simp only [if_true, Option.some.injEq] at h
      subst h
      have hnil : s.pending = [] := List.isEmpty_iff.mp he
      refine ⟨hnil, ?_, ?_⟩
      · simp [potVisits, hnil, spawnVisits_nil]
      · simp [potErrs, hnil, spawnErrs_nil]
  | succ fuel ih =>
    intro s s' h
    simp only [runW] at h
    rcases he : s.pending.isEmpty with _ | _
    · rw [he] at h
      simp only [Bool.false_eq_true, if_false] at h
      rcases hstep : stepW f s (sched fuel % s.pending.length) with _ | s₁
      · rw [hstep] at h
        simp at h
      · rw [hstep] at h
        simp only at h
        obtain ⟨h₁, h₂, h₃⟩ := ih s₁ s' h
        obtain ⟨hv, herr, _, _⟩ := stepW_invariant f s _ s₁ hstep
        exact ⟨h₁, by rw [h₂, hv], by rw [h₃, herr]⟩
    · rw [he] at h
      simp only [if_true, Option.some.injEq] at h
      subst h
      have hnil : s.pending = [] := List.isEmpty_iff.mp he
      refine ⟨hnil, ?_, ?_⟩
      · simp [potVisits, hnil, spawnVisits_nil]
      · simp [potErrs, hnil, spawnErrs_nil]

/-- With enough fuel a panic-free state runs to completion, under any
scheduler. -/
theorem runW_completes (f : WalkFunc) (sched : Nat → Nat) :
    ∀ (fuel : Nat) (s : WState), panFree f s → potSize s ≤ fuel →
      ∃ s', runW f sched fuel s = some s' := by
  intro fuel
  induction fuel with
  | zero =>
    intro s hp hsz
    have hnil : s.pending = [] := by
      cases hl : s.pending with
      | nil => rfl
      | cons j t =>
        exfalso
        have h1 := Node.one_le_size j.2
        have h2 := spawnSize_cons j t
        simp only [potSize, hl] at hsz
        omega
    exact ⟨s, by simp [runW, hnil]⟩
  | succ fuel ih =>
    intro s hp hsz
    rcases he : s.pending.isEmpty with _ | _
    · have hlen : 0 < s.pending.length := by
        cases hl : s.pending with
        | nil => rw [hl] at he; simp at he
        | cons a t => simp [hl]
      have hi : sched fuel % s.pending.length < s.pending.length :=
        Nat.mod_lt _ hlen
      obtain ⟨s₁, hstep⟩ := stepW_succeeds f s _ hi hp
      obtain ⟨_, _, hsz', hpf⟩ := stepW_invariant f s _ s₁ hstep
      have hle : potSize s₁ ≤ fuel := by omega
      obtain ⟨s', hrun⟩ := ih s₁ (hpf hp) hle
      exact ⟨s', by simp [runW, he, hstep, hrun]⟩
    · exact ⟨s, by simp [runW, he]⟩

/-- Consequence: any two completed runs of the same work, under any two
schedulers and fuels, produce the same multiset of callback invocations
and the same multiset of `(path, error)` pairs. -/
theorem runW_confluent (f : WalkFunc) (sched₁ sched₂ : Nat → Nat)
    (fuel₁ fuel₂ : Nat) (s s₁ s₂ : WState)
    (h₁ : runW f sched₁ fuel₁ s = some s₁)
    (h₂ : runW f sched₂ fuel₂ s = some s₂) :
    (↑s₁.visits : Multiset Visit) = ↑s₂.visits ∧
    (↑s₁.errs : Multiset (Path × GoErr)) = ↑s₂.errs := by
  obtain ⟨_, hv₁, he₁⟩ := runW_out f sched₁ fuel₁ s s₁ h₁
  obtain ⟨_, hv₂, he₂⟩ := runW_out f sched₂ fuel₂ s s₂ h₂
  exact ⟨by rw [hv₁, hv₂], by rw [he₁, he₂]⟩

mutual

/-- On a healthy directory, with a callback that always continues, the
walk of one job panics nowhere, reports no error, and visits exactly the
reachable subtree (the job's own path having been visited by whoever
spawned it). -/
theorem dfsJob_healthy (f : WalkFunc) (hf : ∀ q i e, f q i e = none)
    (n : Node) (p : Path) (hh : n.healthy = true) (hd : n.isDirNode = true) :
    (dfsJob f p n).panics = false ∧ (dfsJob f p n).errs = 0 ∧
    p ::ₘ Multiset.map Visit.path (dfsJob f p n).visits = subtreePaths p n := by
  match n with
  | .file => simp [Node.isDirNode] at hd
  | .broken m => simp [Node.isDirNode] at hd
  | .dir (some m) cs => simp [Node.healthy] at hh
  | .dir none cs =>
    have hkids : kidsHealthy cs = true := by simpa [Node.healthy] using hh
    obtain ⟨h₁, h₂, h₃, h₄⟩ := dfsKids_healthy f hf cs p hkids
    refine ⟨?_, ?_, ?_⟩
    · simp [dfsJob, h₁]
    · simp [dfsJob, h₂, h₃]
    · simp [dfsJob, subtreePaths, h₄]

/-- Child-loop version of `dfsJob_healthy`. -/
theorem dfsKids_healthy (f : WalkFunc) (hf : ∀ q i e, f q i e = none)
    (cs : List (String × Node)) (p : Path) (hh : kidsHealthy cs = true) :
    (dfsKids f p cs).panics = false ∧ (dfsKids f p cs).err = none ∧
    (dfsKids f p cs).errs = 0 ∧
    Multiset.map Visit.path (dfsKids f p cs).visits = kidsPaths p cs := by
  match cs with
  | [] => simp [dfsKids, kidsPaths]
  | (name, n) :: rest =>
    have hn : n.healthy = true := by
      simp [kidsHealthy] at hh
      exact hh.1
    have hrest : kidsHealthy rest = true := by
      simp [kidsHealthy] at hh
      exact hh.2
    obtain ⟨ih₁, ih₂, ih₃, ih₄⟩ := dfsKids_healthy f hf rest p hrest
    match hm : n, hn with
    | .file, _ =>
      simp [dfsKids, hf, lstatInfo, lstatErr, FileInfo.isDir, ih₁, ih₂, ih₃, ih₄,
        kidsPaths, subtreePaths, Multiset.singleton_add]
    | .dir none cs', hn' =>
      have hsub := dfsJob_healthy f hf (.dir none cs') (p ++ [name]) hn' rfl
      obtain ⟨s₁, s₂, s₃⟩ := hsub
      simp [dfsKids, hf, lstatInfo, lstatErr, FileInfo.isDir, ih₁, ih₂, ih₃, ih₄,
        kidsPaths, s₁, s₂, ← s₃]
    | .dir (some m) cs', hn' => simp [Node.healthy] at hn'

end

mutual

/-- Every path in a subtree extends the subtree's root path. -/
theorem subtreePaths_extends (n : Node) (p q : Path)
    (h : q ∈ subtreePaths p n) : ∃ t, q = p ++ t := by
  match n with
  | .file =>
    refine ⟨[], ?_⟩
    simp [subtreePaths] at h
    simp [h]
  | .broken m =>
    refine ⟨[], ?_⟩
    simp [subtreePaths] at h
    simp [h]
  | .dir re cs =>
    simp only [subtreePaths, Multiset.mem_cons] at h
    rcases h with rfl | h
    · exact ⟨[], by simp⟩
    · obtain ⟨a, t, _, ht⟩ := kidsPaths_extends cs p q h
      exact ⟨a :: t, ht⟩

/-- Every path among a directory's descendants goes through one of the
directory's child names. -/
theorem kidsPaths_extends (cs : List (String × Node)) (p q : Path)
    (h : q ∈ kidsPaths p cs) :
    ∃ a t, a ∈ cs.map Prod.fst ∧ q = p ++ a :: t := by
  match cs with
  | [] => simp [kidsPaths] at h
  | (name, n) :: rest =>
    simp only [kidsPaths, Multiset.mem_add] at h
    rcases h with h | h
    · obtain ⟨t, ht⟩ := subtreePaths_extends n (p ++ [name]) q h
      exact ⟨name, t, by simp, by simp [ht]⟩
    · obtain ⟨a, t, ha, ht⟩ := kidsPaths_extends rest p q h
      exact ⟨a, t, by simp [ha], ht⟩

end

mutual

/-- In a well-formed tree every reachable path occurs exactly once. -/
theorem subtreePaths_nodup (n : Node) (p : Path) (hw : n.wf = true) :
    (subtreePaths p n).Nodup := by
  match n with
  | .file => simp [subtreePaths]
  | .broken m => simp [subtreePaths]
  | .dir re cs =>
    have hnames : (cs.map Prod.fst).Nodup := by
      simp [Node.wf] at hw
      exact hw.1
    have hkw : kidsWf cs = true := by
      simp [Node.wf] at hw
      exact hw.2
    simp only [subtreePaths, Multiset.nodup_cons]
    refine ⟨?_, kidsPaths_nodup cs p hnames hkw⟩
    intro hmem
    obtain ⟨a, t, _, ht⟩ := kidsPaths_extends cs p p hmem
    have : p.length = p.length + (a :: t).length := by
      conv_lhs => rw [ht]
      simp [List.length_append]
    simp at this

/-- Descendant paths of a directory with distinct, well-formed children
occur exactly once. -/
theorem kidsPaths_nodup (cs : List (String × Node)) (p : Path)
    (hnames : (cs.map Prod.fst).Nodup) (hw : kidsWf cs = true) :
    (kidsPaths p cs).Nodup := by
  match cs with
  | [] => simp [kidsPaths]
  | (name, n) :: rest =>
    have hn : n.wf = true := by
      simp [kidsWf] at hw
      exact hw.1
    have hrest : kidsWf rest = true := by
      simp [kidsWf] at hw
      exact hw.2
    have hnames' : (rest.map Prod.fst).Nodup := (List.nodup_cons.mp hnames).2
    have hnotin : name ∉ rest.map Prod.fst := (List.nodup_cons.mp hnames).1
    simp only [kidsPaths, Multiset.nodup_add]
    refine ⟨subtreePaths_nodup n (p ++ [name]) hn,
      kidsPaths_nodup rest p hnames' hrest, ?_⟩
    rw [Multiset.disjoint_left]
    intro q hq hq'
    obtain ⟨t, ht⟩ := subtreePaths_extends n (p ++ [name]) q hq
    obtain ⟨a, t', ha, ht'⟩ := kidsPaths_extends rest p q hq'
    rw [ht'] at ht
    have : a :: t' = name :: t := by
      have := ht
      rw [List.append_assoc] at this
      simpa using List.append_cancel_left this
    have : a = name := by
      injection this
    exact hnotin (this ▸ ha)

end

/-- While the loop neither aborts nor panics, processing a concatenation
of children concatenates the outputs. -/
theorem processNames_append (f : WalkFunc) (root : Path)
    (l₁ l₂ : List (String × Node))
    (h1 : (processNames f root l₁).err = none)
    (h2 : (processNames f root l₁).panicked = false) :
    processNames f root (l₁ ++ l₂) =
      ⟨(processNames f root l₁).visits ++ (processNames f root l₂).visits,
       (processNames f root l₁).spawned ++ (processNames f root l₂).spawned,
       (processNames f root l₂).err, (processNames f root l₂).panicked⟩ := by
  induction l₁ with
  | nil => simp [processNames]
  | cons c rest ih =>
    obtain ⟨name, n⟩ := c
    rcases hf : f (root ++ [name]) (lstatInfo n) (lstatErr n) with _ | e
    · rcases hn : lstatInfo n with _ | i
      · rw [hn] at hf
        exfalso
        simp [processNames, hf, hn] at h2
      · rw [hn] at hf
        have h1' : (processNames f root rest).err = none := by
          simpa [processNames, hf, hn] using h1
        have h2' : (processNames f root rest).panicked = false := by
          simpa [processNames, hf, hn] using h2
        simp [processNames, hf, hn, ih h1' h2']
    · by_cases hs : e = GoErr.skipDir
      · have h1' : (processNames f root rest).err = none := by
          simpa [processNames, hf, hs] using h1
        have h2' : (processNames f root rest).panicked = false := by
          simpa [processNames, hf, hs] using h2
        simp [processNames, hf, hs, ih h1' h2']
      · exfalso
        simp [processNames, hf, hs] at h1

/-- The first child of a directory listing is always run through the
callback with exactly its lstat results (in particular a stat failure is
passed as the callback's `err` argument). -/
theorem processNames_head_visit (f : WalkFunc) (root : Path) (name : String)
    (n : Node) (rest : List (String × Node)) :
    (processNames f root ((name, n) :: rest)).visits.head? =
      some ⟨root ++ [name], lstatInfo n, lstatErr n⟩ := by
  rcases hf : f (root ++ [name]) (lstatInfo n) (lstatErr n) with _ | e
  · rcases hn : lstatInfo n with _ | i
    · rw [hn] at hf
      simp [processNames, hf, hn]
    · rw [hn] at hf
      simp [processNames, hf, hn]
  · by_cases hs : e = GoErr.skipDir
    · simp [processNames, hf, hs]
    · simp [processNames, hf, hs]

/-- A job is spawned only for an entry whose callback outcome was nil
(continue); in particular a child for which the callback returned the
skip-subtree sentinel is never enqueued. -/
theorem processNames_spawned_callback_none (f : WalkFunc) (root : Path)
    (cs : List (String × Node)) :
    ∀ q m, (q, m) ∈ (processNames f root cs).spawned →
      f q (lstatInfo m) (lstatErr m) = none := by
  induction cs with
  | nil => simp [processNames]
  | cons c rest ih =>
    obtain ⟨name, n⟩ := c
    intro q m hmem
    rcases hf : f (root ++ [name]) (lstatInfo n) (lstatErr n) with _ | e
    · rcases hn : lstatInfo n with _ | i
      · rw [hn] at hf
        simp [processNames, hf, hn] at hmem
      · rw [hn] at hf
        by_cases hd : i.isDir
        · simp [processNames, hf, hn, hd] at hmem
          rcases hmem with ⟨rfl, rfl⟩ | hmem
          · rw [hn]
            exact hf
          · exact ih q m hmem
        · simp [processNames, hf, hn, hd] at hmem
          exact ih q m hmem
    · by_cases hs : e = GoErr.skipDir
      · simp [processNames, hf, hs] at hmem
        exact ih q m hmem
      · simp [processNames, hf, hs] at hmem

/-- The loop never returns the skip-subtree sentinel as a directory's
processing error. -/
theorem processNames_err_ne_skip (f : WalkFunc) (root : Path)
    (cs : List (String × Node)) :
    (processNames f root cs).err ≠ some GoErr.skipDir := by
  induction cs with
  | nil => simp [processNames]
  | cons c rest ih =>
    obtain ⟨name, n⟩ := c
    rcases hf : f (root ++ [name]) (lstatInfo n) (lstatErr n) with _ | e
    · rcases hn : lstatInfo n with _ | i
      · rw [hn] at hf
        simp [processNames, hf, hn]
      · rw [hn] at hf
        simpa [processNames, hf, hn] using ih
    · by_cases hs : e = GoErr.skipDir
      · simpa [processNames, hf, hs] using ih
      · simp [processNames, hf, hs]

mutual

/-- No `(path, skip-sentinel)` pair is ever produced for the error
channel anywhere in a job's subtree. -/
theorem dfsJob_no_skip (f : WalkFunc) (p : Path) (n : Node) :
    ∀ q, (q, GoErr.skipDir) ∉ (dfsJob f p n).errs := by
  match n with
  | .file => intro q; simp [dfsJob]
  | .broken m => intro q; simp [dfsJob]
  | .dir (some m) cs => intro q; simp [dfsJob]
  | .dir none cs =>
    intro q
    have hkids := dfsKids_no_skip f p cs
    have herr : (dfsKids f p cs).err ≠ some GoErr.skipDir := by
      have := (processNames_link f p cs).1
      rw [← this]
      exact processNames_err_ne_skip f p cs
    rcases he : (dfsKids f p cs).err with _ | e
    · simp [dfsJob, he]
      exact hkids q
    · have hne : e ≠ GoErr.skipDir := fun h => herr (by rw [he, h])
      intro hmem
      simp only [dfsJob, he] at hmem
      rcases Multiset.mem_cons.mp hmem with h | h
      · have h2 : GoErr.skipDir = e := congrArg Prod.snd h
        exact hne h2.symm
      · exact hkids q h

/-- Child-loop version of `dfsJob_no_skip`. -/
theorem dfsKids_no_skip (f : WalkFunc) (root : Path)
    (cs : List (String × Node)) :
    ∀ q, (q, GoErr.skipDir) ∉ (dfsKids f root cs).errs := by
  match cs with
  | [] => intro q; simp [dfsKids]
  | (name, n) :: rest =>
    intro q
    have ih := dfsKids_no_skip f root rest
    rcases hf : f (root ++ [name]) (lstatInfo n) (lstatErr n) with _ | e
    · rcases hn : lstatInfo n with _ | i
      · rw [hn] at hf
        simp [dfsKids, hf, hn]
      · rw [hn] at hf
        by_cases hd : i.isDir
        · have hsub := dfsJob_no_skip f (root ++ [name]) n
          simp [dfsKids, hf, hn, hd]
          exact ⟨hsub q, ih q⟩
        · simp [dfsKids, hf, hn, hd]
          exact ih q
    · by_cases hs : e = GoErr.skipDir
      · simp [dfsKids, hf, hs]
        exact ih q
      · simp [dfsKids, hf, hs]

end

theorem stringsJoin_foldl_aux (sep : String) (t : List String) :
    ∀ a b : String,
      t.foldl (fun acc s => acc ++ sep ++ s) (a ++ b) =
        a ++ t.foldl (fun acc s => acc ++ sep ++ s) b := by
  induction t with
  | nil => intro a b; simp
  | cons c t ih =>
    intro a b
    simp only [List.foldl_cons]
    rw [show a ++ b ++ sep ++ c = a ++ (b ++ sep ++ c) by
      simp [String.append_assoc], ih]

/-- `strings.Join` with at least two elements: head, separator, rest. -/
theorem stringsJoin_cons_cons (x y : String) (t : List String) (sep : String) :
    stringsJoin (x :: y :: t) sep = x ++ sep ++ stringsJoin (y :: t) sep := by
  simp only [stringsJoin, List.foldl_cons]
  rw [stringsJoin_foldl_aux sep t (x ++ sep) y]

/-- **C1.** For every directory tree, when the callback always returns
nil (continue) and no filesystem operation fails, `Walk` invokes the
callback exactly once for each path reachable from the root by directory
descent, the root included, and the collection of invoked paths is the
same — the reachable set `subtreePaths` — under every scheduler, hence
for every worker-pool size and queue capacity (which only influence which
schedule occurs); moreover every scheduler admits a completing fuel. -/
theorem walk_visits_reachable_exactly_once (f : WalkFunc) (p : Path) (n : Node)
    (hf : ∀ q i e, f q i e = none)
    (hh : n.healthy = true) (hw : n.wf = true) (hd : n.isDirNode = true) :
    (∀ (sched : Nat → Nat) (fuel : Nat) (out : WalkOut),
      Walk f p n sched fuel = some out →
        (↑(out.visits.map Visit.path) : Multiset Path) = subtreePaths p n ∧
        (out.visits.map Visit.path).Nodup) ∧
    (∀ sched : Nat → Nat, ∃ fuel out, Walk f p n sched fuel = some out) := by
  match n, hh, hd with
  | .dir none cs, hh, _ =>
    obtain ⟨hpan, herrs, hvis⟩ := dfsJob_healthy f hf (.dir none cs) p hh rfl
    have hfree : panFree f ⟨[(p, Node.dir none cs)], [], []⟩ := by
      simp [panFree, spawnPanics_cons, spawnPanics_nil, hpan]
    constructor
    · intro sched fuel out h
      simp only [Walk, lstatErr, lstatInfo, hf] at h
      rcases hr : runW f sched fuel ⟨[(p, Node.dir none cs)], [], []⟩ with _ | s
      · rw [hr] at h
        simp at h
      · rw [hr] at h
        simp only [FileInfo.isDir, Bool.not_true, Bool.false_eq_true, if_false,
          Option.some.injEq] at h
        subst h
        obtain ⟨hpend, hv, he⟩ := runW_out f sched fuel _ s hr
        have hsv : (↑s.visits : Multiset Visit) =
            (dfsJob f p (Node.dir none cs)).visits := by
          rw [hv]
          simp [potVisits, spawnVisits_cons, spawnVisits_nil]
        constructor
        · show (↑((((⟨p, some ⟨true⟩, none⟩ : Visit)) :: s.visits).map Visit.path) :
              Multiset Path) = subtreePaths p (Node.dir none cs)
          rw [← hvis]
          simp only [List.map_cons]
          rw [← Multiset.cons_coe]
          congr 1
          rw [← hsv, Multiset.map_coe]
        · have hnodup : (subtreePaths p (Node.dir none cs)).Nodup :=
            subtreePaths_nodup _ p hw
          rw [← hvis] at hnodup
          have : (↑((((⟨p, some ⟨true⟩, none⟩ : Visit)) :: s.visits).map Visit.path) :
              Multiset Path) = p ::ₘ Multiset.map Visit.path ↑s.visits := by
            simp only [List.map_cons]
            rw [← Multiset.cons_coe, Multiset.map_coe]
          rw [hsv] at this
          have h2 : (↑((((⟨p, some ⟨true⟩, none⟩ : Visit)) :: s.visits).map Visit.path) :
              Multiset Path).Nodup := by
            rw [this]
            exact hnodup
          simpa [Multiset.coe_nodup] using h2
    · intro sched
      obtain ⟨s, hs⟩ := runW_completes f sched (potSize ⟨[(p, Node.dir none cs)], [], []⟩)
        ⟨[(p, Node.dir none cs)], [], []⟩ hfree le_rfl
      refine ⟨potSize ⟨[(p, Node.dir none cs)], [], []⟩,
        ⟨(⟨p, some ⟨true⟩, none⟩ : Visit) :: s.visits, s.errs,
          if s.errs.length > 0 then
            some (.list (s.errs.map fun pe => ⟨pe.2, pe.1⟩)) else none⟩, ?_⟩
      simp only [Walk, lstatErr, lstatInfo, hf]
      rw [hs]
      simp [FileInfo.isDir]

/-- Witness for C1: a concrete tree, the always-continue callback, and a
concrete scheduler admit a completed walk. -/
theorem walk_visits_reachable_exactly_once_witness :
    ∃ fuel out,
      Walk (fun _ _ _ => none) []
        (.dir none [("a.txt", .file), ("sub", .dir none [("b.txt", .file)])])
        (fun _ => 0) fuel = some out :=
  (walk_visits_reachable_exactly_once (fun _ _ _ => none) []
    (.dir none [("a.txt", .file), ("sub", .dir none [("b.txt", .file)])])
    (fun _ _ _ => rfl) (by decide) (by decide) (by decide)).2 (fun _ => 0)

/-- **C8.** For every tree and callback, any two completed walks of the
same root produce the same multiset of visited paths and the same
multiset of collected `(path, error)` pairs, whatever the scheduler and
fuel; the queue-buffer capacity (0, 1 or the default) and the pool size
only determine which jobs overflow into the synchronous fallback, i.e.
which schedule occurs, so the visited set and error set do not depend on
them. -/
theorem walk_outcome_schedule_invariant (f : WalkFunc) (p : Path) (n : Node)
    (sched₁ sched₂ : Nat → Nat) (fuel₁ fuel₂ : Nat) (o₁ o₂ : WalkOut)
    (h₁ : Walk f p n sched₁ fuel₁ = some o₁)
    (h₂ : Walk f p n sched₂ fuel₂ = some o₂) :
    (↑(o₁.visits.map Visit.path) : Multiset Path) = ↑(o₂.visits.map Visit.path) ∧
    (↑o₁.errs : Multiset (Path × GoErr)) = ↑o₂.errs := by
  unfold Walk at h₁ h₂
  rcases hle : lstatErr n with _ | e
  · rcases hli : lstatInfo n with _ | info
    · rw [hle, hli] at h₁ h₂
      simp only [Option.some.injEq] at h₁ h₂
      subst h₁
      subst h₂
      exact ⟨rfl, rfl⟩
    · rw [hle, hli] at h₁ h₂
      dsimp only at h₁ h₂
      rcases hfc : f p (some info) none with _ | e
      · rw [hfc] at h₁ h₂
        rcases hdir : info.isDir with _ | _
        · rw [hdir] at h₁ h₂
          simp only [Bool.not_false, if_true, Option.some.injEq] at h₁ h₂
          subst h₁
          subst h₂
          exact ⟨rfl, rfl⟩
        · rw [hdir] at h₁ h₂
          simp only [Bool.not_true, Bool.false_eq_true, if_false] at h₁ h₂
          rcases hr₁ : runW f sched₁ fuel₁ ⟨[(p, n)], [], []⟩ with _ | s₁
          · rw [hr₁] at h₁
            simp at h₁
          · rw [hr₁] at h₁
            rcases hr₂ : runW f sched₂ fuel₂ ⟨[(p, n)], [], []⟩ with _ | s₂
            · rw [hr₂] at h₂
              simp at h₂
            · rw [hr₂] at h₂
              simp only [Option.some.injEq] at h₁ h₂
              subst h₁
              subst h₂
              obtain ⟨hv, he⟩ := runW_confluent f sched₁ sched₂ fuel₁ fuel₂ _ s₁ s₂ hr₁ hr₂
              constructor
              · show (↑(((⟨p, some info, none⟩ : Visit) :: s₁.visits).map Visit.path) :
                    Multiset Path) = ↑(((⟨p, some info, none⟩ : Visit) :: s₂.visits).map Visit.path)
                simp only [List.map_cons]
                rw [← Multiset.cons_coe, ← Multiset.cons_coe]
                congr 1
                rw [← Multiset.map_coe, ← Multiset.map_coe, hv]
              · exact he
      · rw [hfc] at h₁ h₂
        simp only [Option.some.injEq] at h₁ h₂
        subst h₁
        subst h₂
        exact ⟨rfl, rfl⟩
  · rw [hle] at h₁ h₂
    simp only [Option.some.injEq] at h₁ h₂
    subst h₁
    subst h₂
    exact ⟨rfl, rfl⟩

/-- Witness for C8: the same tree walked under two schedulers that
complete the two subdirectories in opposite orders yields equal visit
multisets and equal error multisets. -/
theorem walk_outcome_schedule_invariant_witness :
    (↑((WalkOut.mk
        [⟨[], some ⟨true⟩, none⟩, ⟨["d1"], some ⟨true⟩, none⟩, ⟨["d2"], some ⟨true⟩, none⟩,
         ⟨["d1", "x"], some ⟨false⟩, none⟩, ⟨["d2", "y"], some ⟨false⟩, none⟩] [] none).visits.map
          Visit.path) : Multiset Path) =
      ↑((WalkOut.mk
        [⟨[], some ⟨true⟩, none⟩, ⟨["d1"], some ⟨true⟩, none⟩, ⟨["d2"], some ⟨true⟩, none⟩,
         ⟨["d2", "y"], some ⟨false⟩, none⟩, ⟨["d1", "x"], some ⟨false⟩, none⟩] [] none).visits.map
          Visit.path) ∧
    (↑(WalkOut.mk
        [⟨[], some ⟨true⟩, none⟩, ⟨["d1"], some ⟨true⟩, none⟩, ⟨["d2"], some ⟨true⟩, none⟩,
         ⟨["d1", "x"], some ⟨false⟩, none⟩, ⟨["d2", "y"], some ⟨false⟩, none⟩] [] none).errs :
        Multiset (Path × GoErr)) =
      ↑(WalkOut.mk
        [⟨[], some ⟨true⟩, none⟩, ⟨["d1"], some ⟨true⟩, none⟩, ⟨["d2"], some ⟨true⟩, none⟩,
         ⟨["d2", "y"], some ⟨false⟩, none⟩, ⟨["d1", "x"], some ⟨false⟩, none⟩] [] none).errs :=
  walk_outcome_schedule_invariant (fun _ _ _ => none) []
    (.dir none [("d1", .dir none [("x", .file)]), ("d2", .dir none [("y", .file)])])
    (fun _ => 0) (fun _ => 1) 5 5 _ _ rfl rfl

/-- **C3.** If, while one directory's children are being processed, the
callback returns an abort error `e` (non-nil, not the skip sentinel) for
some child, no later child in listing order is visited, nothing more is
spawned, and `e` becomes the directory's own processing result; if the
callback returns the skip sentinel for a directory child instead, that
child is not enqueued but the remaining siblings are processed. -/
theorem abort_stops_siblings_skip_continues (f : WalkFunc) (root : Path)
    (pre post : List (String × Node)) (name : String) (n : Node)
    (h1 : (processNames f root pre).err = none)
    (h2 : (processNames f root pre).panicked = false) :
    (∀ e, f (root ++ [name]) (lstatInfo n) (lstatErr n) = some e →
      e ≠ GoErr.skipDir →
      processNames f root (pre ++ (name, n) :: post) =
        ⟨(processNames f root pre).visits ++ [⟨root ++ [name], lstatInfo n, lstatErr n⟩],
         (processNames f root pre).spawned, some e, false⟩) ∧
    (f (root ++ [name]) (lstatInfo n) (lstatErr n) = some GoErr.skipDir →
      processNames f root (pre ++ (name, n) :: post) =
        ⟨(processNames f root pre).visits ++
           ⟨root ++ [name], lstatInfo n, lstatErr n⟩ :: (processNames f root post).visits,
         (processNames f root pre).spawned ++ (processNames f root post).spawned,
         (processNames f root post).err, (processNames f root post).panicked⟩) := by
  constructor
  · intro e hfe hne
    rw [processNames_append f root pre ((name, n) :: post) h1 h2]
    have hhd : processNames f root ((name, n) :: post) =
        ⟨[⟨root ++ [name], lstatInfo n, lstatErr n⟩], [], some e, false⟩ := by
      simp [processNames, hfe, hne]
    rw [hhd]
    simp
  · intro hfe
    rw [processNames_append f root pre ((name, n) :: post) h1 h2]
    have hhd : processNames f root ((name, n) :: post) =
        ⟨⟨root ++ [name], lstatInfo n, lstatErr n⟩ :: (processNames f root post).visits,
         (processNames f root post).spawned, (processNames f root post).err,
         (processNames f root post).panicked⟩ := by
      simp [processNames, hfe]
    rw [hhd]

/-- Witness for C3: an aborting callback stops the listing after the
failing child (the sibling `z` is never visited), and a skipping callback
lets the sibling `z` be visited while the skipped directory is not
enqueued. -/
theorem abort_stops_siblings_skip_continues_witness :
    processNames (fun q _ _ => if q = ["d", "bad"] then some (.other "boom") else none)
        ["d"] ([("a", .file)] ++ ("bad", .file) :: [("z", .file)]) =
      ⟨(processNames (fun q _ _ => if q = ["d", "bad"] then some (.other "boom") else none)
          ["d"] [("a", .file)]).visits ++ [⟨["d", "bad"], some ⟨false⟩, none⟩],
       (processNames (fun q _ _ => if q = ["d", "bad"] then some (.other "boom") else none)
          ["d"] [("a", .file)]).spawned, some (.other "boom"), false⟩ ∧
    processNames (fun q _ _ => if q = ["d", "s"] then some GoErr.skipDir else none)
        ["d"] ([] ++ ("s", .dir none [("u", .file)]) :: [("z", .file)]) =
      ⟨(processNames (fun q _ _ => if q = ["d", "s"] then some GoErr.skipDir else none)
          ["d"] []).visits ++
         ⟨["d", "s"], some ⟨true⟩, none⟩ ::
           (processNames (fun q _ _ => if q = ["d", "s"] then some GoErr.skipDir else none)
             ["d"] [("z", .file)]).visits,
       (processNames (fun q _ _ => if q = ["d", "s"] then some GoErr.skipDir else none)
          ["d"] []).spawned ++
         (processNames (fun q _ _ => if q = ["d", "s"] then some GoErr.skipDir else none)
           ["d"] [("z", .file)]).spawned,
       (processNames (fun q _ _ => if q = ["d", "s"] then some GoErr.skipDir else none)
         ["d"] [("z", .file)]).err,
       (processNames (fun q _ _ => if q = ["d", "s"] then some GoErr.skipDir else none)
         ["d"] [("z", .file)]).panicked⟩ :=
  ⟨(abort_stops_siblings_skip_continues
      (fun q _ _ => if q = ["d", "bad"] then some (.other "boom") else none)
      ["d"] [("a", .file)] [("z", .file)] "bad" .file
      rfl rfl).1 (.other "boom") rfl (by decide),
   (abort_stops_siblings_skip_continues
      (fun q _ _ => if q = ["d", "s"] then some GoErr.skipDir else none)
      ["d"] [] [("z", .file)] "s"
      (.dir none [("u", .file)]) rfl rfl).2 rfl⟩

/-- **C2 (amended).** For every *non-root* entry for which the callback
returns the skip-subtree sentinel the walker treats the outcome as
success — the entry is never enqueued (a job is spawned only when the
callback returned nil), no `(path, sentinel)` error pair is ever sent to
the error channel, and the sentinel never appears in the aggregate error
list of a completed walk.  For the *root* itself, however, the sentinel
returned by the callback is surfaced as the error `Walk` returns. -/
theorem skip_subtree_success_except_root (f : WalkFunc) (p : Path) (n : Node)
    (sched : Nat → Nat) (fuel : Nat) :
    (∀ root cs q m, (q, m) ∈ (processNames f root cs).spawned →
      f q (lstatInfo m) (lstatErr m) = none) ∧
    (∀ out, Walk f p n sched fuel = some out →
      (∀ q, (q, GoErr.skipDir) ∉ out.errs) ∧
      (∀ l, out.ret = some (.list l) → ∀ we ∈ l, we.error ≠ GoErr.skipDir)) ∧
    (∀ info, lstatErr n = none → lstatInfo n = some info →
      f p (some info) none = some GoErr.skipDir →
      Walk f p n sched fuel =
        some ⟨[⟨p, some info, none⟩], [], some (.single GoErr.skipDir)⟩) := by
  refine ⟨processNames_spawned_callback_none f, ?_, ?_⟩
  · intro out h
    unfold Walk at h
    rcases hle : lstatErr n with _ | e
    · rcases hli : lstatInfo n with _ | info
      · rw [hle, hli] at h
        simp only [Option.some.injEq] at h
        subst h
        exact ⟨by simp, by simp⟩
      · rw [hle, hli] at h
        dsimp only at h
        rcases hfc : f p (some info) none with _ | e
        · rw [hfc] at h
          rcases hdir : info.isDir with _ | _
          · rw [hdir] at h
            simp only [Bool.not_false, if_true, Option.some.injEq] at h
            subst h
            exact ⟨by simp, by simp⟩
          · rw [hdir] at h
            simp only [Bool.not_true, Bool.false_eq_true, if_false] at h
            rcases hr : runW f sched fuel ⟨[(p, n)], [], []⟩ with _ | s
            · rw [hr] at h
              simp at h
            · rw [hr] at h
              simp only [Option.some.injEq] at h
              subst h
              obtain ⟨hpend, hv, he⟩ := runW_out f sched fuel _ s hr
              have hse : (↑s.errs : Multiset (Path × GoErr)) =
                  (dfsJob f p n).errs := by
                rw [he]
                simp [potErrs, spawnErrs_cons, spawnErrs_nil]
              have hnotin : ∀ q, (q, GoErr.skipDir) ∉ s.errs := by
                intro q hq
                have : (q, GoErr.skipDir) ∈ (↑s.errs : Multiset (Path × GoErr)) := by
                  simpa using hq
                rw [hse] at this
                exact dfsJob_no_skip f p n q this
              refine ⟨hnotin, ?_⟩
              intro l hl we hwe hskip
              dsimp only at hl
              have hl' : l = s.errs.map fun pe => (⟨pe.2, pe.1⟩ : WalkerError) := by
                by_cases hlen : s.errs.length > 0
                · rw [if_pos hlen] at hl
                  exact (WalkRet.list.inj (Option.some.inj hl)).symm
                · rw [if_neg hlen] at hl
                  exact absurd hl (by simp)
              subst hl'
              obtain ⟨pe, hpe, hwe'⟩ := List.mem_map.mp hwe
              have : pe.2 = GoErr.skipDir := by
                rw [← hwe'] at hskip
                exact hskip
              exact hnotin pe.1 (by rw [← this]; exact hpe)
        · rw [hfc] at h
          simp only [Option.some.injEq] at h
          subst h
          exact ⟨by simp, by simp⟩
    · rw [hle] at h
      simp only [Option.some.injEq] at h
      subst h
      exact ⟨by simp, by simp⟩
  · intro info hle hli hskip
    unfold Walk
    rw [hle, hli]
    dsimp only
    rw [hskip]

/-- **C2 counterexample:** the original claim says the sentinel is never
surfaced as (part of) the error returned by `Walk`, "for every entry,
including the root itself"; but when the callback returns the sentinel
for the root, `Walk` returns the sentinel itself. -/
theorem skip_sentinel_surfaced_for_root :
    Walk (fun _ _ _ => some .skipDir) [] (.dir none []) (fun _ => 0) 1 =
      some ⟨[⟨[], some ⟨true⟩, none⟩], [], some (.single .skipDir)⟩ := rfl

/-- Witness for C2 (amended): a completed walk in which a directory child
was skipped carries no sentinel in its collected errors, and its
aggregate (here: no aggregate at all) exposes no sentinel. -/
theorem skip_subtree_success_except_root_witness :
    (∀ q, (q, GoErr.skipDir) ∉ (WalkOut.mk
      [⟨[], some ⟨true⟩, none⟩, ⟨["s"], some ⟨true⟩, none⟩, ⟨["t"], some ⟨false⟩, none⟩]
      [] none).errs) ∧
    (∀ l, (WalkOut.mk
      [⟨[], some ⟨true⟩, none⟩, ⟨["s"], some ⟨true⟩, none⟩, ⟨["t"], some ⟨false⟩, none⟩]
      [] none).ret = some (.list l) → ∀ we ∈ l, we.error ≠ GoErr.skipDir) :=
  ((skip_subtree_success_except_root
      (fun q _ _ => if q = ["s"] then some .skipDir else none) []
      (.dir none [("s", .dir none [("u", .file)]), ("t", .file)])
      (fun _ => 0) 2).2.1 _ rfl)

/-- **C4 (amended).** During the root check `Walk` stats the root without
following symlinks; when the stat succeeds, the root is run through the
callback with a nil `err`; when the stat fails, the stat error is
returned directly and the callback is **not** invoked — unlike ordinary
entries, which are always run through the callback with their lstat
outcome, a stat failure included. -/
theorem root_stat_failure_not_passed_to_callback (f : WalkFunc) (p : Path)
    (n : Node) (sched : Nat → Nat) (fuel : Nat) :
    (∀ e, lstatErr n = some e →
      Walk f p n sched fuel = some ⟨[], [], some (.single e)⟩) ∧
    (∀ info, lstatErr n = none → lstatInfo n = some info →
      ∀ out, Walk f p n sched fuel = some out →
        out.visits.head? = some ⟨p, some info, none⟩) ∧
    (∀ root name m rest,
      (processNames f root ((name, m) :: rest)).visits.head? =
        some ⟨root ++ [name], lstatInfo m, lstatErr m⟩) := by
  refine ⟨?_, ?_, processNames_head_visit f⟩
  · intro e he
    unfold Walk
    rw [he]
  · intro info hle hli out h
    unfold Walk at h
    rw [hle, hli] at h
    dsimp only at h
    rcases hfc : f p (some info) none with _ | e
    · rw [hfc] at h
      rcases hdir : info.isDir with _ | _
      · rw [hdir] at h
        simp only [Bool.not_false, if_true, Option.some.injEq] at h
        subst h
        rfl
      · rw [hdir] at h
        simp only [Bool.not_true, Bool.false_eq_true, if_false] at h
        rcases hr : runW f sched fuel ⟨[(p, n)], [], []⟩ with _ | st
        · rw [hr] at h
          simp at h
        · rw [hr] at h
          simp only [Option.some.injEq] at h
          subst h
          rfl
    · rw [hfc] at h
      simp only [Option.some.injEq] at h
      subst h
      rfl

/-- **C4 counterexample:** when `os.Lstat(root)` fails, `Walk` returns
the stat error having invoked the callback zero times — the failure is
*not* passed to the callback the way it is for ordinary entries. -/
theorem root_stat_failure_counterexample :
    Walk (fun _ _ _ => none) [] (.broken "permission denied") (fun _ => 0) 1 =
      some ⟨[], [], some (.single (.io "permission denied"))⟩ := rfl

/-- Witness for C4 (amended): the root stat error comes back as is with
no callback invocation, and an ordinary entry with a failing lstat is run
through the callback with the failure as its `err` argument. -/
theorem root_stat_failure_not_passed_to_callback_witness :
    Walk (fun _ _ _ => none) [] (.broken "EACCES") (fun _ => 0) 1 =
      some ⟨[], [], some (.single (.io "EACCES"))⟩ ∧
    (processNames (fun _ _ _ => none) ["d"] (("x", .broken "EIO") :: [])).visits.head? =
      some ⟨["d", "x"], none, some (.io "EIO")⟩ :=
  ⟨(root_stat_failure_not_passed_to_callback (fun _ _ _ => none) []
      (.broken "EACCES") (fun _ => 0) 1).1 (.io "EACCES") rfl,
   (root_stat_failure_not_passed_to_callback (fun _ _ _ => none) []
      (.broken "EACCES") (fun _ => 0) 1).2.2 ["d"] "x" (.broken "EIO") []⟩

/-- **C5 (amended).** The error returned by a completed `Walk` has one of
*five* shapes: nil; the not-a-directory sentinel; the aggregate error
list, which exposes exactly the collected `(path, cause)` pairs for
structured inspection; the root's lstat error returned as is; or the root
callback's non-nil outcome returned as is.  (The original claim listed
only the first three; the last two arise from the root check.) -/
theorem walk_error_shapes (f : WalkFunc) (p : Path) (n : Node)
    (sched : Nat → Nat) (fuel : Nat) (out : WalkOut)
    (h : Walk f p n sched fuel = some out) :
    out.ret = none ∨
    out.ret = some (.single GoErr.errNotDir) ∨
    (∃ l, out.ret = some (.list l) ∧
      l = out.errs.map fun pe => (⟨pe.2, pe.1⟩ : WalkerError)) ∨
    (∃ e, out.ret = some (.single e) ∧ lstatErr n = some e) ∨
    (∃ info e, lstatInfo n = some info ∧ f p (some info) none = some e ∧
      out.ret = some (.single e)) := by
  unfold Walk at h
  rcases hle : lstatErr n with _ | e
  · rcases hli : lstatInfo n with _ | info
    · rw [hle, hli] at h
      simp only [Option.some.injEq] at h
      subst h
      exact Or.inr (Or.inl rfl)
    · rw [hle, hli] at h
      dsimp only at h
      rcases hfc : f p (some info) none with _ | e
      · rw [hfc] at h
        rcases hdir : info.isDir with _ | _
        · rw [hdir] at h
          simp only [Bool.not_false, if_true, Option.some.injEq] at h
          subst h
          exact Or.inr (Or.inl rfl)
        · rw [hdir] at h
          simp only [Bool.not_true, Bool.false_eq_true, if_false] at h
          rcases hr : runW f sched fuel ⟨[(p, n)], [], []⟩ with _ | st
          · rw [hr] at h
            simp at h
          · rw [hr] at h
            simp only [Option.some.injEq] at h
            subst h
            by_cases hlen : st.errs.length > 0
            · refine Or.inr (Or.inr (Or.inl ⟨st.errs.map fun pe => ⟨pe.2, pe.1⟩, ?_, rfl⟩))
              show (if st.errs.length > 0 then
                  some (WalkRet.list (st.errs.map fun pe => ⟨pe.2, pe.1⟩)) else none) =
                some (WalkRet.list (st.errs.map fun pe => ⟨pe.2, pe.1⟩))
              rw [if_pos hlen]
            · refine Or.inl ?_
              show (if st.errs.length > 0 then
                  some (WalkRet.list (st.errs.map fun pe => ⟨pe.2, pe.1⟩)) else none) = none
              rw [if_neg hlen]
      · rw [hfc] at h
        simp only [Option.some.injEq] at h
        subst h
        exact Or.inr (Or.inr (Or.inr (Or.inr ⟨info, e, rfl, hfc, rfl⟩)))
  · rw [hle] at h
    simp only [Option.some.injEq] at h
    subst h
    exact Or.inr (Or.inr (Or.inr (Or.inl ⟨e, rfl, rfl⟩)))

/-- **C5 counterexample:** a callback that aborts on the root makes
`Walk` return that callback error — a value which is neither nil, nor the
not-a-directory sentinel, nor the aggregate list, contradicting the
original three-shape claim. -/
theorem walk_error_shapes_counterexample :
    Walk (fun _ _ _ => some (.other "boom")) [] (.dir none []) (fun _ => 0) 1 =
      some ⟨[⟨[], some ⟨true⟩, none⟩], [], some (.single (.other "boom"))⟩ ∧
    ¬((some (WalkRet.single (.other "boom")) : Option WalkRet) = none ∨
      (some (WalkRet.single (.other "boom")) : Option WalkRet) =
        some (.single GoErr.errNotDir) ∨
      ∃ l, (some (WalkRet.single (.other "boom")) : Option WalkRet) =
        some (.list l)) := by
  refine ⟨rfl, ?_⟩
  rintro (h | h | ⟨l, h⟩) <;> simp at h

/-- Witness for C5 (amended): the shape classification applied to a
concrete clean walk. -/
theorem walk_error_shapes_witness :
    (WalkOut.mk [⟨[], some ⟨true⟩, none⟩] [] none).ret = none ∨
    (WalkOut.mk [⟨[], some ⟨true⟩, none⟩] [] none).ret =
      some (.single GoErr.errNotDir) ∨
    (∃ l, (WalkOut.mk [⟨[], some ⟨true⟩, none⟩] [] none).ret = some (.list l) ∧
      l = (WalkOut.mk [⟨[], some ⟨true⟩, none⟩] [] none).errs.map
        fun pe => (⟨pe.2, pe.1⟩ : WalkerError)) ∨
    (∃ e, (WalkOut.mk [⟨[], some ⟨true⟩, none⟩] [] none).ret = some (.single e) ∧
      lstatErr (.dir none []) = some e) ∨
    (∃ info e, (some (⟨true⟩ : FileInfo) : Option FileInfo) = some info ∧
      (none : Option GoErr) = some e ∧
      (WalkOut.mk [⟨[], some ⟨true⟩, none⟩] [] none).ret = some (.single e)) :=
  walk_error_shapes (fun _ _ _ => none) [] (.dir none []) (fun _ => 0) 1 _ rfl

/-- **C6 (amended).** Walking a root that exists and is a plain file
invokes the callback exactly once, for the root itself; if that callback
invocation returns nil, `Walk` returns the not-a-directory error, and if
it returns a non-nil error, `Walk` returns that error instead of the
not-a-directory sentinel.  (The original claim promised the sentinel for
every callback.) -/
theorem plain_file_root_not_a_directory (f : WalkFunc) (p : Path)
    (sched : Nat → Nat) (fuel : Nat) :
    (f p (some ⟨false⟩) none = none →
      Walk f p .file sched fuel =
        some ⟨[⟨p, some ⟨false⟩, none⟩], [], some (.single .errNotDir)⟩) ∧
    (∀ e, f p (some ⟨false⟩) none = some e →
      Walk f p .file sched fuel =
        some ⟨[⟨p, some ⟨false⟩, none⟩], [], some (.single e)⟩) := by
  constructor
  · intro hc
    unfold Walk
    dsimp only [lstatErr, lstatInfo]
    rw [hc]
    rfl
  · intro e hc
    unfold Walk
    dsimp only [lstatErr, lstatInfo]
    rw [hc]


/-- **C6 counterexample:** for a plain-file root and a callback that
aborts on it, `Walk` returns the callback's error, not the
not-a-directory error the original claim promised. -/
theorem plain_file_root_counterexample :
    Walk (fun _ _ _ => some (.other "cb failed")) ["f.txt"] .file (fun _ => 0) 1 =
      some ⟨[⟨["f.txt"], some ⟨false⟩, none⟩], [], some (.single (.other "cb failed"))⟩ ∧
    GoErr.other "cb failed" ≠ GoErr.errNotDir :=
  ⟨rfl, by decide⟩

/-- Witness for C6 (amended): with the always-continue callback a
plain-file root yields the not-a-directory error after exactly one
callback invocation. -/
theorem plain_file_root_not_a_directory_witness :
    Walk (fun _ _ _ => none) ["f.txt"] .file (fun _ => 0) 1 =
      some ⟨[⟨["f.txt"], some ⟨false⟩, none⟩], [], some (.single .errNotDir)⟩ :=
  (plain_file_root_not_a_directory (fun _ _ _ => none) ["f.txt"] (fun _ => 0) 1).1 rfl

/-- **C7.** Whenever a job submission finds the bounded job queue
saturated (the non-blocking send fails), `addJob` runs the path processor
synchronously on the submitting execution context — nothing is enqueued,
nothing blocks, the queue does not grow — and any processing error from
that synchronous run is sent to the error channel in exactly the
`(path, error)` form a worker produces for the same job; when a slot is
available the job is enqueued and nothing runs inline. -/
theorem addJob_saturated_inline_like_worker (f : WalkFunc) (p : Path) (n : Node) :
    (addJob f false p n).ranInline = true ∧
    (addJob f false p n).enqueued = false ∧
    (addJob f false p n).visits = (workerIter f p n).1 ∧
    (addJob f false p n).spawned = (workerIter f p n).2.1 ∧
    (addJob f false p n).errorsSent = (workerIter f p n).2.2 ∧
    (addJob f true p n).enqueued = true ∧
    (addJob f true p n).ranInline = false := by
  simp [addJob, workerIter]

/-- **C9.** The aggregate `WalkerErrorList`, surfaced as a single error
value, renders as the newline-joined messages of the collected
`(path, underlying error)` records, in the order they arrived (head
first, then separator, then the rest); an empty aggregate renders as the
empty string. -/
theorem walker_error_list_newline_joined (wel : WalkerErrorList) :
    (wel.ErrorList = [] → wel.message = "") ∧
    (∀ we, wel.ErrorList = [we] → wel.message = we.message) ∧
    (∀ we l, wel.ErrorList = we :: l → l ≠ [] →
      wel.message = we.message ++ "\x0a" ++ WalkerErrorList.message ⟨l⟩) := by
  obtain ⟨el⟩ := wel
  refine ⟨?_, ?_, ?_⟩
  · intro h
    subst h
    simp [WalkerErrorList.message]
  · intro we h
    subst h
    simp [WalkerErrorList.message, stringsJoin]
  · intro we l h hne
    subst h
    cases l with
    | nil => exact absurd rfl hne
    | cons y t =>
      show WalkerErrorList.message ⟨we :: y :: t⟩ = _
      simp only [WalkerErrorList.message, List.length_cons, List.map_cons]
      rw [if_pos (by omega), if_pos (by omega)]
      exact stringsJoin_cons_cons _ _ _ _

/-- Witness for C9: a two-error aggregate renders as the first message,
a newline, then the rendering of the rest. -/
theorem walker_error_list_newline_joined_witness :
    WalkerErrorList.message ⟨[⟨.io "open /x: EACCES", ["x"]⟩, ⟨.io "read /y: EIO", ["y"]⟩]⟩ =
      WalkerError.message ⟨.io "open /x: EACCES", ["x"]⟩ ++ "\x0a" ++
        WalkerErrorList.message ⟨[⟨.io "read /y: EIO", ["y"]⟩]⟩ :=
  (walker_error_list_newline_joined _).2.2 ⟨.io "open /x: EACCES", ["x"]⟩
    [⟨.io "read /y: EIO", ["y"]⟩] rfl (by simp)

/-- **C10 (refuted: bug in the code).** The claim asserts that the
`info.IsDir()` test in `processPath` is never reached with absent
metadata.  But when a child's `os.Lstat` fails and the callback swallows
the error by returning nil, the code evaluates `info.IsDir()` on a nil
`FileInfo`: the model's panic flag is set, and the whole walk crashes
(`Walk` completes with no result) — exactly the nil-dereference the
claim rules out.  The repository's own example callback returns nil
after counting an error, so the intent of the claim matches the spec and
the code is at fault. -/
theorem nil_fileinfo_isdir_panic :
    (processNames (fun _ _ _ => none) ["d"] [("x", .broken "ENOENT")]).panicked = true ∧
    Walk (fun _ _ _ => none) [] (.dir none [("x", .broken "ENOENT")]) (fun _ => 0) 3 =
      none :=
  ⟨rfl, rfl⟩

end Cwalk
